import Mathlib

/-!
Shallow embedding of the local-cache library (`src/cache.ts`).

The filesystem, the glob scanner and the external archive tool are
modelled as explicit inputs:
  * the store directory is a `List Entry` (the files present in the
    cache directory, with their stats);
  * glob expansion during save is an oracle `glob : String → List String`
    and the literal-path `stat` probe an oracle `statEx : String → Bool`;
  * the key sanitizer (the external `filenamify` library) is an abstract
    function `san : String → String`;
  * the archive tool's success or failure is a boolean `tarOk`, and the
    `skip-failure` configuration flag a boolean `skipFailure`.
Side effects (invoking tar, creating the store directory, deleting a
bad bundle) are recorded as flags in the result structures, so that
claims about which effects happen on which control path are statable.
JavaScript's stable `Array.prototype.sort` is embedded as a stable
insertion sort with the same comparator, and `.pop()` as `popLast`.
-/

/-- Subset of a scanned directory entry (`fg.Entry`) used by the code:
`stats?.mtimeMs` and `stats?.size`. -/
structure Stats where
  mtimeMs : Nat
  size : Nat
  deriving DecidableEq

/-- A scanned cache file: `name` (basename), `path` (relative path in the
store) and optional `stats`. -/
structure Entry where
  name : String
  path : String
  stats : Option Stats
  deriving DecidableEq

/-- Closed error type replacing the thrown JS errors: `ValidationError`,
the generic `Error("No valid paths...")`, and a re-raised tar failure. -/
inductive CacheError where
  | validation (msg : String)
  | generic (msg : String)
  | tarError
  deriving DecidableEq

/-- `checkPaths`: ValidationError when the path list is empty. -/
def checkPaths (paths : List String) : Except CacheError Unit :=
  if paths.length = 0 then
    .error (.validation "Path Validation Error: At least one directory or file path is required")
  else .ok ()

/-- `checkKey`: ValidationError when the key is longer than 255
characters, else when it contains a comma (regex `[^,]*` anchored). -/
def checkKey (key : String) : Except CacheError Unit :=
  if key.length > 255 then
    .error (.validation s!"Key Validation Error: {key} cannot be larger than 255 characters.")
  else if key.toList.contains ',' then
    .error (.validation s!"Key Validation Error: {key} cannot contain commas.")
  else .ok ()

/-- JS `name.indexOf(matcher) !== -1`: substring containment, embedded on
character lists (some suffix of `name` starts with `m`). -/
def substrMatch (m : String) (name : String) : Bool :=
  name.toList.tails.any fun t => m.toList.isPrefixOf t

/-- Loop body of `filterCacheFiles`: the accumulator is the
`potentialCaches` array shared across candidate iterations; the loop
returns as soon as it is non-empty after a candidate's pass. -/
def filterAux (cacheFiles : List Entry) :
    List String → List Entry → Option String × List Entry
  | [], acc => (none, acc)
  | m :: ms, acc =>
    let acc' := acc ++ cacheFiles.filter (fun e => substrMatch m e.name)
    if acc'.length ≠ 0 then (some m, acc') else filterAux cacheFiles ms acc'

/-- `filterCacheFiles(filenameMatchers, cacheFiles)`. -/
def filterCacheFiles (filenameMatchers : List String) (cacheFiles : List Entry) :
    Option String × List Entry :=
  filterAux cacheFiles filenameMatchers []

/-- `stats?.mtimeMs || 0`: a missing stat counts as modification time 0. -/
def entryMtime (e : Entry) : Nat :=
  match e.stats with
  | some s => s.mtimeMs
  | none => 0

/-- Stable insertion into an ascending run, matching the comparator
`mtimeA > mtimeB ? 1 : mtimeB > mtimeA ? -1 : 0`: an element moves past
another only when its mtime is strictly smaller. -/
def insertByMtime (e : Entry) : List Entry → List Entry
  | [] => [e]
  | f :: fs =>
    if entryMtime e ≤ entryMtime f then e :: f :: fs else f :: insertByMtime e fs

/-- Stable ascending sort by mtime: the embedding of the JS
`potentialCaches.sort(comparator)` call (JS sort is stable). -/
def sortByMtime : List Entry → List Entry
  | [] => []
  | e :: es => insertByMtime e (sortByMtime es)

/-- JS `Array.prototype.pop()`: the last element, if any. -/
def popLast : List Entry → Option Entry
  | [] => none
  | [e] => some e
  | _ :: f :: fs => popLast (f :: fs)

/-- Specification-side recursion computing the entry a stable ascending
sort followed by `.pop()` selects: the element of maximal `entryMtime`,
preferring the later one in list order on ties. -/
def lastMax : List Entry → Option Entry
  | [] => none
  | e :: es =>
    match lastMax es with
    | none => some e
    | some m => if entryMtime e ≤ entryMtime m then some m else some e

/-- `locateCacheFile`: select candidate and matches, bail out when the
match list is empty or the key is falsy (JS `!key` is also true for the
empty string), else stably sort ascending by mtime and pop the last. -/
def locateCacheFile (filenameMatchers : List String) (cacheFiles : List Entry) :
    Option (String × Entry) :=
  let r := filterCacheFiles filenameMatchers cacheFiles
  match r.1 with
  | none => none
  | some key =>
    if r.2.length = 0 ∨ key = "" then none
    else
      match popLast (sortByMtime r.2) with
      | none => none
      | some latest => some (key, latest)

/-- The store scan of `restoreCache`: fast-glob over patterns
`"<matcher>*"` with `unique: true` returns each store file whose name
starts with one of the matchers, in store order. -/
def scanStore (filenameMatchers : List String) (store : List Entry) : List Entry :=
  store.filter fun e => filenameMatchers.any fun m => m.toList.isPrefixOf e.name.toList

/-- Candidate matcher list of `restoreCache`:
`(Array.isArray(restoreKeys) && restoreKeys.length ? [primaryKey, ...restoreKeys] : [primaryKey]).map(filenamify)`. -/
def matchersOf (san : String → String) (primaryKey : String)
    (restoreKeys : Option (List String)) : List String :=
  (match restoreKeys with
   | some rks => if rks.length ≠ 0 then primaryKey :: rks else [primaryKey]
   | none => [primaryKey]).map san

instance {ε α : Type} [DecidableEq ε] [DecidableEq α] : DecidableEq (Except ε α) := fun x y =>
  match x, y with
  | .ok a, .ok b => decidable_of_iff (a = b) (by simp)
  | .error e, .error f => decidable_of_iff (e = f) (by simp)
  | .ok _, .error _ => .isFalse (by simp)
  | .error _, .ok _ => .isFalse (by simp)

/-- Outcome of `restoreCache`: the returned value or thrown error, the
cache file chosen for extraction (if any), and whether the tar process
and the bad-bundle cleanup were invoked. -/
structure RestoreResult where
  result : Except CacheError (Option String)
  selected : Option Entry
  tarInvoked : Bool
  cleanupInvoked : Bool
  deriving DecidableEq

/-- `restoreCache` after its two validation calls: scan the store, locate
a cache file, extract; on tar failure warn, then re-raise when
`skipFailure` is false (without cleanup), else delete the bad bundle and
still return the matched key. -/
def restoreAfterChecks (store : List Entry) (tarOk skipFailure : Bool)
    (filenameMatchers : List String) : RestoreResult :=
  let cacheFiles := scanStore filenameMatchers store
  match locateCacheFile filenameMatchers cacheFiles with
  | none => ⟨.ok none, none, false, false⟩
  | some (key, cacheFile) =>
    if tarOk then ⟨.ok (some key), some cacheFile, true, false⟩
    else if skipFailure = false then ⟨.error .tarError, some cacheFile, true, false⟩
    else ⟨.ok (some key), some cacheFile, true, true⟩

/-- `restoreCache(paths, primaryKey, restoreKeys)`. -/
def restoreCache (san : String → String) (store : List Entry)
    (tarOk skipFailure : Bool) (paths : List String) (primaryKey : String)
    (restoreKeys : Option (List String)) : RestoreResult :=
  match checkKey primaryKey with
  | .error e => ⟨.error e, none, false, false⟩
  | .ok () =>
    match checkPaths paths with
    | .error e => ⟨.error e, none, false, false⟩
    | .ok () => restoreAfterChecks store tarOk skipFailure (matchersOf san primaryKey restoreKeys)

/-- Loop body of the path expansion in `saveCache`: glob matches are
appended wholesale; a glob-less spec that stats as an existing literal
path is appended as-is; anything else is dropped with a warning. -/
def expandAux (glob : String → List String) (statEx : String → Bool) :
    List String → List String → List String
  | acc, [] => acc
  | acc, p :: ps =>
    let globMatches := glob p
    if globMatches.length > 0 then expandAux glob statEx (acc ++ globMatches) ps
    else if statEx p then expandAux glob statEx (acc ++ [p]) ps
    else expandAux glob statEx acc ps

/-- The expanded path list built by `saveCache`. -/
def expandPaths (glob : String → List String) (statEx : String → Bool)
    (paths : List String) : List String :=
  expandAux glob statEx [] paths

/-- Outcome of `saveCache`: returned value or thrown error, the bundle
filename it targets (once computed), and which effects were invoked. -/
structure SaveResult where
  result : Except CacheError Nat
  bundle : Option String
  mkdirInvoked : Bool
  tarInvoked : Bool
  cleanupInvoked : Bool
  deriving DecidableEq

/-- `saveCache(paths, key)`: validate, expand, fail when nothing
expanded, else mkdir the store and run tar; on tar failure warn, always
delete the partial bundle, then re-raise unless `skipFailure`; returns
the fixed id 420 otherwise. -/
def saveCache (san : String → String) (glob : String → List String)
    (statEx : String → Bool) (tarOk skipFailure : Bool)
    (paths : List String) (key : String) : SaveResult :=
  match checkPaths paths with
  | .error e => ⟨.error e, none, false, false, false⟩
  | .ok () =>
    match checkKey key with
    | .error e => ⟨.error e, none, false, false, false⟩
    | .ok () =>
      let expandedPaths := expandPaths glob statEx paths
      if expandedPaths.length = 0 then
        ⟨.error (.generic "No valid paths found to cache after expansion"), none, false, false, false⟩
      else
        let cacheName := san key ++ ".tar.zst"
        if tarOk then ⟨.ok 420, some cacheName, true, true, false⟩
        else if skipFailure = false then ⟨.error .tarError, some cacheName, true, true, true⟩
        else ⟨.ok 420, some cacheName, true, true, true⟩

/-! ## Helper lemmas -/

theorem checkPaths_ok {paths : List String} (h : paths ≠ []) : checkPaths paths = .ok () := by
  unfold checkPaths
  simp [List.length_eq_zero, h]

theorem mem_insertByMtime {x e : Entry} {l : List Entry} :
    x ∈ insertByMtime e l ↔ x = e ∨ x ∈ l := by
  induction l with
  | nil => simp [insertByMtime]
  | cons f fs ih =>
    by_cases h : entryMtime e ≤ entryMtime f
    · simp only [insertByMtime, if_pos h, List.mem_cons]
    · simp only [insertByMtime, if_neg h, List.mem_cons, ih]
      tauto

theorem insertByMtime_ne_nil (e : Entry) (l : List Entry) : insertByMtime e l ≠ [] := by
  cases l with
  | nil => simp [insertByMtime]
  | cons f fs =>
    unfold insertByMtime
    split <;> simp

theorem pairwise_insertByMtime {e : Entry} {l : List Entry}
    (h : l.Pairwise fun a b => entryMtime a ≤ entryMtime b) :
    (insertByMtime e l).Pairwise fun a b => entryMtime a ≤ entryMtime b := by
  induction l with
  | nil => simp [insertByMtime]
  | cons f fs ih =>
    rw [List.pairwise_cons] at h
    obtain ⟨hf, hfs⟩ := h
    by_cases hef : entryMtime e ≤ entryMtime f
    · rw [insertByMtime, if_pos hef, List.pairwise_cons]
      refine ⟨?_, List.pairwise_cons.mpr ⟨hf, hfs⟩⟩
      intro x hx
      rcases List.mem_cons.mp hx with rfl | hx
      · exact hef
      · exact hef.trans (hf x hx)
    · rw [insertByMtime, if_neg hef, List.pairwise_cons]
      refine ⟨?_, ih hfs⟩
      intro x hx
      rcases mem_insertByMtime.mp hx with rfl | hx
      · exact le_of_not_le hef
      · exact hf x hx

theorem sortByMtime_pairwise (l : List Entry) :
    (sortByMtime l).Pairwise fun a b => entryMtime a ≤ entryMtime b := by
  induction l with
  | nil => simp [sortByMtime]
  | cons e es ih => exact pairwise_insertByMtime ih

theorem popLast_cons_ne_none (f : Entry) (fs : List Entry) : ∃ m, popLast (f :: fs) = some m := by
  induction fs generalizing f with
  | nil => exact ⟨f, rfl⟩
  | cons g gs ih => simpa [popLast] using ih g

theorem popLast_eq_none_iff {l : List Entry} : popLast l = none ↔ l = [] := by
  cases l with
  | nil => simp [popLast]
  | cons f fs =>
    obtain ⟨m, hm⟩ := popLast_cons_ne_none f fs
    simp [hm]

theorem popLast_mem {l : List Entry} {m : Entry} (hm : popLast l = some m) : m ∈ l := by
  induction l with
  | nil => simp [popLast] at hm
  | cons f fs ih =>
    cases fs with
    | nil =>
      simp only [popLast, Option.some.injEq] at hm
      simp [hm]
    | cons g gs =>
      have : popLast (g :: gs) = some m := hm
      rcases ih this with h
      exact List.mem_cons_of_mem f h

theorem popLast_insertByMtime {e m : Entry} {l : List Entry}
    (hs : l.Pairwise fun a b => entryMtime a ≤ entryMtime b)
    (hm : popLast l = some m) :
    popLast (insertByMtime e l) =
      if entryMtime e ≤ entryMtime m then some m else some e := by
  induction l with
  | nil => simp [popLast] at hm
  | cons f fs ih =>
    cases fs with
    | nil =>
      have hfm : f = m := by simpa [popLast] using hm
      subst hfm
      rw [insertByMtime]
      by_cases hef : entryMtime e ≤ entryMtime f
      · simp [hef, popLast]
      · simp [hef, popLast]
    | cons g gs =>
      have hm' : popLast (g :: gs) = some m := hm
      rw [List.pairwise_cons] at hs
      obtain ⟨hf, hfs⟩ := hs
      have hmm : entryMtime f ≤ entryMtime m := hf m (popLast_mem hm')
      by_cases hef : entryMtime e ≤ entryMtime f
      · rw [insertByMtime, if_pos hef]
        have hstep : popLast (e :: f :: g :: gs) = popLast (f :: g :: gs) := rfl
        rw [hstep, hm, if_pos (hef.trans hmm)]
      · rw [insertByMtime, if_neg hef]
        obtain ⟨h, t, hins⟩ := List.exists_cons_of_ne_nil (insertByMtime_ne_nil e (g :: gs))
        have hstep : popLast (f :: insertByMtime e (g :: gs)) =
            popLast (insertByMtime e (g :: gs)) := by
          rw [hins]
          rfl
        rw [hstep, ih hfs hm']

theorem popLast_sortByMtime (l : List Entry) : popLast (sortByMtime l) = lastMax l := by
  induction l with
  | nil => rfl
  | cons e es ih =>
    cases hes : lastMax es with
    | none =>
      have hnil : sortByMtime es = [] := popLast_eq_none_iff.mp (by rw [ih, hes])
      rw [sortByMtime, hnil]
      simp [insertByMtime, popLast, lastMax, hes]
    | some m =>
      have hpop : popLast (sortByMtime es) = some m := by rw [ih, hes]
      rw [sortByMtime, popLast_insertByMtime (sortByMtime_pairwise es) hpop]
      simp [lastMax, hes]

theorem lastMax_eq_none_iff {l : List Entry} : lastMax l = none ↔ l = [] := by
  cases l with
  | nil => simp [lastMax]
  | cons e es =>
    simp only [lastMax]
    cases lastMax es with
    | none => simp
    | some m =>
      by_cases h : entryMtime e ≤ entryMtime m <;> simp [h]

theorem lastMax_mem {l : List Entry} {m : Entry} (h : lastMax l = some m) : m ∈ l := by
  induction l generalizing m with
  | nil => simp [lastMax] at h
  | cons e es ih =>
    cases hes : lastMax es with
    | none =>
      simp only [lastMax, hes, Option.some.injEq] at h
      simp [← h]
    | some m' =>
      simp only [lastMax, hes] at h
      by_cases hcmp : entryMtime e ≤ entryMtime m'
      · rw [if_pos hcmp] at h
        injection h with h
        subst h
        exact List.mem_cons_of_mem e (ih hes)
      · rw [if_neg hcmp] at h
        injection h with h
        simp [← h]

theorem lastMax_isMax {l : List Entry} {m : Entry} (h : lastMax l = some m) :
    ∀ x ∈ l, entryMtime x ≤ entryMtime m := by
  induction l generalizing m with
  | nil => simp [lastMax] at h
  | cons e es ih =>
    cases hes : lastMax es with
    | none =>
      have hnil : es = [] := lastMax_eq_none_iff.mp hes
      subst hnil
      simp only [lastMax, Option.some.injEq] at h
      simp [← h]
    | some m' =>
      simp only [lastMax, hes] at h
      intro x hx
      by_cases hcmp : entryMtime e ≤ entryMtime m'
      · rw [if_pos hcmp] at h
        injection h with h
        subst h
        rcases List.mem_cons.mp hx with rfl | hx
        · exact hcmp
        · exact ih hes x hx
      · rw [if_neg hcmp] at h
        injection h with h
        subst h
        rcases List.mem_cons.mp hx with rfl | hx
        · exact le_refl _
        · exact (ih hes x hx).trans (le_of_not_le hcmp)

theorem lastMax_split {l : List Entry} {m : Entry} (h : lastMax l = some m) :
    ∃ l1 l2, l = l1 ++ m :: l2 ∧ ∀ x ∈ l2, entryMtime x < entryMtime m := by
  induction l generalizing m with
  | nil => simp [lastMax] at h
  | cons e es ih =>
    cases hes : lastMax es with
    | none =>
      have : es = [] := lastMax_eq_none_iff.mp hes
      subst this
      simp only [lastMax, Option.some.injEq] at h
      exact ⟨[], [], by simp [← h], by simp⟩
    | some m' =>
      simp only [lastMax, hes] at h
      by_cases hcmp : entryMtime e ≤ entryMtime m'
      · rw [if_pos hcmp] at h
        injection h with h
        subst h
        obtain ⟨l1, l2, heq, hlt⟩ := ih hes
        exact ⟨e :: l1, l2, by simp [heq], hlt⟩
      · rw [if_neg hcmp] at h
        injection h with h
        subst h
        refine ⟨[], es, by simp, ?_⟩
        intro x hx
        exact lt_of_le_of_lt (lastMax_isMax hes x hx) (lt_of_not_le hcmp)

theorem filterCacheFiles_no_match (ms : List String) (fs : List Entry)
    (h : ∀ m ∈ ms, ∀ e ∈ fs, substrMatch m e.name = false) :
    filterCacheFiles ms fs = (none, []) := by
  unfold filterCacheFiles
  induction ms with
  | nil => rfl
  | cons m ms ih =>
    have hfil : fs.filter (fun e => substrMatch m e.name) = [] :=
      List.filter_eq_nil_iff.mpr fun e he => by simp [h m (by simp) e he]
    rw [filterAux]
    simp only [hfil, List.append_nil, List.nil_append, List.length_nil, ne_eq,
      not_true_eq_false, if_false, ite_false]
    have := ih fun m' hm' e he => h m' (List.mem_cons_of_mem m hm') e he
    simpa using this

/-! ## Claim theorems -/

/-- C1: `filterCacheFiles` iterates the sanitized candidates in order and
returns the first candidate some scanned entry's filename contains as a
substring, together with exactly that candidate's matching entries;
entries matching only later candidates are never considered. -/
theorem filterCacheFiles_first_candidate (l1 l2 : List String) (m : String)
    (fs : List Entry)
    (h1 : ∀ m' ∈ l1, ∀ e ∈ fs, substrMatch m' e.name = false)
    (h2 : ∃ e ∈ fs, substrMatch m e.name = true) :
    filterCacheFiles (l1 ++ m :: l2) fs =
      (some m, fs.filter fun e => substrMatch m e.name) := by
  unfold filterCacheFiles
  induction l1 with
  | nil =>
    obtain ⟨e, he, hme⟩ := h2
    have hmem : e ∈ fs.filter fun e => substrMatch m e.name :=
      List.mem_filter.mpr ⟨he, hme⟩
    have hlen : (fs.filter fun e => substrMatch m e.name).length ≠ 0 := by
      intro hc
      rw [List.length_eq_zero] at hc
      rw [hc] at hmem
      exact absurd hmem (List.not_mem_nil e)
    rw [List.nil_append, filterAux]
    simp [hlen]
  | cons m' l1 ih =>
    have hfil : fs.filter (fun e => substrMatch m' e.name) = [] :=
      List.filter_eq_nil_iff.mpr fun e he => by simp [h1 m' (by simp) e he]
    rw [List.cons_append, filterAux]
    simp only [hfil, List.append_nil, List.length_nil, ne_eq, not_true_eq_false, ite_false]
    exact ih fun m'' hm'' e he => h1 m'' (List.mem_cons_of_mem m' hm'') e he

/-- C1 witness: with candidates `["zq", "bc"]`, the first candidate
matches nothing, so the entry whose name merely *contains* `"bc"` (not
as a prefix) is selected under candidate `"bc"`. -/
theorem filterCacheFiles_first_candidate_witness :
    filterCacheFiles (["zq"] ++ "bc" :: []) [⟨"xbc.tar.zst", "xbc.tar.zst", none⟩] =
      (some "bc", [⟨"xbc.tar.zst", "xbc.tar.zst", none⟩]) := by
  have h := filterCacheFiles_first_candidate ["zq"] [] "bc"
    [⟨"xbc.tar.zst", "xbc.tar.zst", none⟩]
    (by decide) (by decide)
  simpa using h

/-- C2 counterexample: when the selected candidate is the empty string
(`filenamify` of the empty key), `filterCacheFiles` selects it with a
non-empty match set, yet `locateCacheFile` returns `none` (the JS guard
`!key` treats the empty-string key as falsy) instead of an entry of
maximal modification time. -/
theorem locateCacheFile_empty_key_counterexample :
    filterCacheFiles [""] [⟨"a.tar.zst", "a.tar.zst", some ⟨5, 1⟩⟩] =
      (some "", [⟨"a.tar.zst", "a.tar.zst", some ⟨5, 1⟩⟩]) ∧
    locateCacheFile [""] [⟨"a.tar.zst", "a.tar.zst", some ⟨5, 1⟩⟩] = none := by
  constructor <;> rfl

/-- C2 (amended): when the candidate selected by `filterCacheFiles` is
non-empty as a string and has a non-empty match set, `locateCacheFile`
returns that candidate together with a matched entry of maximal
modification time (`mtimeMs`, missing stats counting as 0); on ties the
entry occurring last in the match list's order is chosen (the stable
ascending sort followed by `.pop()`). -/
theorem locateCacheFile_latest (filenameMatchers : List String)
    (cacheFiles : List Entry) (k : String) (pcs : List Entry)
    (hf : filterCacheFiles filenameMatchers cacheFiles = (some k, pcs))
    (hne : pcs ≠ []) (hk : k ≠ "") :
    ∃ m, locateCacheFile filenameMatchers cacheFiles = some (k, m) ∧ m ∈ pcs ∧
      (∀ x ∈ pcs, entryMtime x ≤ entryMtime m) ∧
      ∃ pre post, pcs = pre ++ m :: post ∧
        ∀ x ∈ post, entryMtime x < entryMtime m := by
  cases hm : lastMax pcs with
  | none => exact absurd (lastMax_eq_none_iff.mp hm) hne
  | some m =>
    refine ⟨m, ?_, lastMax_mem hm, lastMax_isMax hm, lastMax_split hm⟩
    have hlen : pcs.length ≠ 0 := by
      simpa [List.length_eq_zero] using hne
    unfold locateCacheFile
    rw [hf]
    simp [hlen, hk, popLast_sortByMtime, hm]

/-- C2 witness: two entries match the sole candidate with equal mtimes;
the later one in list order is selected. -/
theorem locateCacheFile_latest_witness :
    ∃ m, locateCacheFile ["k1"] [⟨"k1-a", "k1-a", some ⟨7, 1⟩⟩, ⟨"k1-b", "k1-b", some ⟨7, 2⟩⟩] =
        some ("k1", m) ∧
      m ∈ [⟨"k1-a", "k1-a", some ⟨7, 1⟩⟩, ⟨"k1-b", "k1-b", some ⟨7, 2⟩⟩] ∧
      (∀ x ∈ [Entry.mk "k1-a" "k1-a" (some ⟨7, 1⟩), Entry.mk "k1-b" "k1-b" (some ⟨7, 2⟩)],
        entryMtime x ≤ entryMtime m) ∧
      ∃ pre post,
        [Entry.mk "k1-a" "k1-a" (some ⟨7, 1⟩), Entry.mk "k1-b" "k1-b" (some ⟨7, 2⟩)] =
          pre ++ m :: post ∧
        ∀ x ∈ post, entryMtime x < entryMtime m :=
  locateCacheFile_latest ["k1"]
    [⟨"k1-a", "k1-a", some ⟨7, 1⟩⟩, ⟨"k1-b", "k1-b", some ⟨7, 2⟩⟩] "k1"
    [⟨"k1-a", "k1-a", some ⟨7, 1⟩⟩, ⟨"k1-b", "k1-b", some ⟨7, 2⟩⟩]
    (by decide) (by decide) (by decide)

/-- C3 counterexample: with `skipFailure` false and a failing unpack,
`restoreCache` re-raises the archive error *without* attempting deletion
of the corrupt bundle (the `throw err` precedes the `rm` in the catch
block), contradicting the claim that cleanup is attempted in that case. -/
theorem restore_no_cleanup_on_reraise_counterexample :
    (restoreCache id [⟨"k.tar.zst", "k.tar.zst", some ⟨5, 9⟩⟩]
        false false ["p"] "k" none).result = .error .tarError ∧
    (restoreCache id [⟨"k.tar.zst", "k.tar.zst", some ⟨5, 9⟩⟩]
        false false ["p"] "k" none).cleanupInvoked = false := by
  constructor <;> rfl

/-- C3 (amended): when the archive process fails, `saveCache` attempts
deletion of the partial bundle whenever the archive tool was invoked,
regardless of `skipFailure`; `restoreCache`, however, attempts deletion
of the corrupt bundle only when `skipFailure` is set — with `skipFailure`
false it re-raises without attempting cleanup. -/
theorem tar_failure_cleanup_policy (san : String → String)
    (glob : String → List String) (statEx : String → Bool)
    (store : List Entry) (skipFailure : Bool) (paths rpaths : List String)
    (key primaryKey : String) (restoreKeys : Option (List String)) :
    (saveCache san glob statEx false skipFailure paths key).cleanupInvoked =
      (saveCache san glob statEx false skipFailure paths key).tarInvoked ∧
    (restoreCache san store false skipFailure rpaths primaryKey restoreKeys).cleanupInvoked =
      ((restoreCache san store false skipFailure rpaths primaryKey restoreKeys).tarInvoked
        && skipFailure) := by
  constructor
  · unfold saveCache
    cases checkPaths paths with
    | error e => rfl
    | ok u =>
      cases u
      cases checkKey key with
      | error e => rfl
      | ok u =>
        cases u
        by_cases hlen : (expandPaths glob statEx paths).length = 0
        · simp [hlen]
        · cases skipFailure <;> simp [hlen]
  · unfold restoreCache
    cases hk : checkKey primaryKey with
    | error e => simp
    | ok u =>
      cases u
      cases hp : checkPaths rpaths with
      | error e => simp
      | ok u =>
        cases u
        simp only [restoreAfterChecks]
        cases hloc : locateCacheFile (matchersOf san primaryKey restoreKeys)
            (scanStore (matchersOf san primaryKey restoreKeys) store) with
        | none => simp
        | some kc =>
          obtain ⟨k, c⟩ := kc
          cases skipFailure <;> simp

/-- C4 counterexample: with `skipFailure` set and a failing archive
process, `restoreCache` still returns the matched key (not an absent
result), and `saveCache` still returns the bundle identifier 420 (not
"no identifier"). -/
theorem skip_failure_positive_outcome_counterexample :
    (restoreCache id [⟨"k.tar.zst", "k.tar.zst", some ⟨5, 9⟩⟩]
        false true ["p"] "k" none).result = .ok (some "k") ∧
    (saveCache id (fun _ => ["d"]) (fun _ => false) false true ["d"] "k").result =
      .ok 420 := by
  constructor <;> rfl

/-- C4 (amended): when `skipFailure` is set and the archive process
fails, the failure is swallowed, but the operations report the same
positive outcome as on success: `restoreCache` returns the matched key
(after deleting the corrupt bundle) and `saveCache` returns the bundle
identifier 420 (after deleting the partial bundle). -/
theorem skip_failure_swallows_with_positive_outcome (san : String → String)
    (store : List Entry) (paths : List String) (primaryKey : String)
    (restoreKeys : Option (List String)) (k : String) (c : Entry)
    (glob : String → List String) (statEx : String → Bool)
    (spaths : List String) (key : String)
    (hk : checkKey primaryKey = .ok ()) (hp : paths ≠ [])
    (hloc : locateCacheFile (matchersOf san primaryKey restoreKeys)
        (scanStore (matchersOf san primaryKey restoreKeys) store) = some (k, c))
    (hsp : spaths ≠ []) (hsk : checkKey key = .ok ())
    (hexp : expandPaths glob statEx spaths ≠ []) :
    restoreCache san store false true paths primaryKey restoreKeys =
      ⟨.ok (some k), some c, true, true⟩ ∧
    saveCache san glob statEx false true spaths key =
      ⟨.ok 420, some (san key ++ ".tar.zst"), true, true, true⟩ := by
  constructor
  · unfold restoreCache
    rw [hk, checkPaths_ok hp]
    simp only [restoreAfterChecks]
    rw [hloc]
    simp
  · unfold saveCache
    rw [checkPaths_ok hsp, hsk]
    have hlen : (expandPaths glob statEx spaths).length ≠ 0 := by
      simpa [List.length_eq_zero] using hexp
    simp [hlen]

/-- C4 witness: a store holding one bundle for key "k"; with
`skipFailure` and a failing tar, restore reports the key and save
reports 420. -/
theorem skip_failure_swallows_with_positive_outcome_witness :
    restoreCache id [⟨"k.tar.zst", "k.tar.zst", some ⟨5, 9⟩⟩]
        false true ["p"] "k" none =
      ⟨.ok (some "k"), some ⟨"k.tar.zst", "k.tar.zst", some ⟨5, 9⟩⟩, true, true⟩ ∧
    saveCache id (fun _ => ["d"]) (fun _ => false) false true ["d"] "k" =
      ⟨.ok 420, some (id "k" ++ ".tar.zst"), true, true, true⟩ :=
  skip_failure_swallows_with_positive_outcome id
    [⟨"k.tar.zst", "k.tar.zst", some ⟨5, 9⟩⟩] ["p"] "k" none "k"
    ⟨"k.tar.zst", "k.tar.zst", some ⟨5, 9⟩⟩ (fun _ => ["d"]) (fun _ => false)
    ["d"] "k" (by rfl) (by decide) (by rfl) (by decide) (by rfl) (by decide)

/-- C5: `checkKey` raises a ValidationError exactly when the key exceeds
255 characters or contains a comma (so a 255-character comma-free key is
accepted); `checkPaths` raises exactly when the path list is empty; and
both `saveCache` and `restoreCache` perform these checks before any
filesystem effect, so a validation failure performs no I/O at all. -/
theorem validation_checks (key : String) (paths : List String)
    (san : String → String) (glob : String → List String)
    (statEx : String → Bool) (store : List Entry) (tarOk skipFailure : Bool)
    (rpaths : List String) (primaryKey : String)
    (restoreKeys : Option (List String)) :
    ((∃ msg, checkKey key = .error (.validation msg)) ↔
      key.length > 255 ∨ ',' ∈ key.data) ∧
    (checkKey key = .ok () ↔ ¬(key.length > 255 ∨ ',' ∈ key.data)) ∧
    ((∃ msg, checkPaths paths = .error (.validation msg)) ↔ paths = []) ∧
    ((checkPaths paths = .ok () ∧ checkKey key = .ok ()) ∨
      ∃ msg, saveCache san glob statEx tarOk skipFailure paths key =
        ⟨.error (.validation msg), none, false, false, false⟩) ∧
    ((checkKey primaryKey = .ok () ∧ checkPaths rpaths = .ok ()) ∨
      ∃ msg, restoreCache san store tarOk skipFailure rpaths primaryKey restoreKeys =
        ⟨.error (.validation msg), none, false, false⟩) := by
  refine ⟨?_, ?_, ?_, ?_, ?_⟩
  · unfold checkKey
    by_cases h1 : key.length > 255
    · simp [h1]
    · by_cases h2 : ',' ∈ key.data
      · simp [h1, h2]
      · simp [h1, h2]
  · unfold checkKey
    by_cases h1 : key.length > 255
    · simp [h1]
    · by_cases h2 : ',' ∈ key.data
      · simp [h1, h2]
      · simp [h1, h2]
  · unfold checkPaths
    by_cases h : paths.length = 0
    · simp [h, List.length_eq_zero.mp h]
    · have : paths ≠ [] := by simpa [List.length_eq_zero] using h
      simp [h, this]
  · cases hcp : checkPaths paths with
    | error e =>
      right
      have hmsg : ∃ msg, e = .validation msg := by
        unfold checkPaths at hcp
        by_cases h : paths.length = 0
        · rw [if_pos h] at hcp
          exact ⟨_, by injection hcp with h'; rw [← h']⟩
        · rw [if_neg h] at hcp
          cases hcp
      obtain ⟨msg, rfl⟩ := hmsg
      refine ⟨msg, ?_⟩
      unfold saveCache
      rw [hcp]
    | ok u =>
      cases u
      cases hck : checkKey key with
      | error e =>
        right
        have hmsg : ∃ msg, e = .validation msg := by
          unfold checkKey at hck
          by_cases h1 : key.length > 255
          · rw [if_pos h1] at hck
            exact ⟨_, by injection hck with h'; rw [← h']⟩
          · rw [if_neg h1] at hck
            by_cases h2 : key.toList.contains ',' = true
            · rw [if_pos h2] at hck
              exact ⟨_, by injection hck with h'; rw [← h']⟩
            · rw [if_neg h2] at hck
              cases hck
        obtain ⟨msg, rfl⟩ := hmsg
        refine ⟨msg, ?_⟩
        unfold saveCache
        rw [hcp, hck]
      | ok u =>
        cases u
        exact Or.inl ⟨rfl, rfl⟩
  · cases hck : checkKey primaryKey with
    | error e =>
      right
      have hmsg : ∃ msg, e = .validation msg := by
        unfold checkKey at hck
        by_cases h1 : primaryKey.length > 255
        · rw [if_pos h1] at hck
          exact ⟨_, by injection hck with h'; rw [← h']⟩
        · rw [if_neg h1] at hck
          by_cases h2 : primaryKey.toList.contains ',' = true
          · rw [if_pos h2] at hck
            exact ⟨_, by injection hck with h'; rw [← h']⟩
          · rw [if_neg h2] at hck
            cases hck
      obtain ⟨msg, rfl⟩ := hmsg
      refine ⟨msg, ?_⟩
      unfold restoreCache
      rw [hck]
    | ok u =>
      cases u
      cases hcp : checkPaths rpaths with
      | error e =>
        right
        have hmsg : ∃ msg, e = .validation msg := by
          unfold checkPaths at hcp
          by_cases h : rpaths.length = 0
          · rw [if_pos h] at hcp
            exact ⟨_, by injection hcp with h'; rw [← h']⟩
          · rw [if_neg h] at hcp
            cases hcp
        obtain ⟨msg, rfl⟩ := hmsg
        refine ⟨msg, ?_⟩
        unfold restoreCache
        rw [hck, hcp]
      | ok u =>
        cases u
        exact Or.inl ⟨rfl, rfl⟩

set_option maxRecDepth 4000 in
/-- C5 witness: a comma rejects, an empty path list rejects and keeps
`saveCache` free of effects, and a 255-character comma-free key is
accepted. -/
theorem validation_checks_witness :
    (∃ msg, checkKey "a,b" = .error (.validation msg)) ∧
    (∃ msg, checkPaths ([] : List String) = .error (.validation msg)) ∧
    checkKey (String.mk (List.replicate 255 'a')) = .ok () ∧
    (∃ msg, saveCache id (fun _ => []) (fun _ => false) true false [] "k" =
      ⟨.error (.validation msg), none, false, false, false⟩) := by
  have h1 := validation_checks "a,b" [] id (fun _ => []) (fun _ => false)
    [] true false [] "k" none
  have h2 := validation_checks (String.mk (List.replicate 255 'a')) [] id
    (fun _ => []) (fun _ => false) [] true false [] "k" none
  refine ⟨h1.1.mpr (Or.inr (by decide)), h1.2.2.1.mpr rfl,
    h2.2.1.mpr (by decide), ?_⟩
  rcases h1.2.2.2.1 with ⟨hok, _⟩ | hsave
  · exact absurd hok (by decide)
  · exact hsave

theorem expandAux_append (glob : String → List String) (statEx : String → Bool)
    (paths : List String) :
    ∀ acc, expandAux glob statEx acc paths =
      acc ++ (paths.map fun p =>
        if glob p ≠ [] then glob p else if statEx p then [p] else []).flatten := by
  induction paths with
  | nil => intro acc; simp [expandAux]
  | cons p ps ih =>
    intro acc
    rw [expandAux]
    by_cases hg : (glob p).length > 0
    · have hne : glob p ≠ [] := by
        intro hc
        rw [hc] at hg
        simp at hg
      rw [if_pos hg, ih]
      simp [hne, List.append_assoc]
    · have hnil : glob p = [] := by
        rcases List.eq_nil_or_concat (glob p) with h | ⟨l, a, h⟩
        · exact h
        · exact absurd (by simp [h]) hg
      rw [if_neg hg]
      by_cases hst : statEx p
      · rw [if_pos hst, ih]
        simp [hnil, hst, List.append_assoc]
      · rw [if_neg hst, ih]
        simp [hnil, hst]

/-- C7: path expansion processes the PathSpec list in order; for each
spec all glob matches are appended when there is at least one, else the
spec itself when it exists as a literal path, else nothing; the outcome
is the order-preserving concatenation, with no deduplication. -/
theorem expandPaths_spec (glob : String → List String) (statEx : String → Bool)
    (paths : List String) :
    expandPaths glob statEx paths =
      (paths.map fun p =>
        if glob p ≠ [] then glob p else if statEx p then [p] else []).flatten := by
  rw [expandPaths, expandAux_append]
  simp

/-- C6: with a non-empty path list, a valid key, and every spec failing
both glob expansion and the literal stat probe, `saveCache` fails with
the generic no-valid-paths error before any filesystem effect: no mkdir,
no archive invocation, no bundle, no cleanup. -/
theorem saveCache_no_valid_paths (san : String → String)
    (glob : String → List String) (statEx : String → Bool)
    (tarOk skipFailure : Bool) (paths : List String) (key : String)
    (hp : paths ≠ []) (hk : checkKey key = .ok ())
    (hnone : ∀ p ∈ paths, glob p = [] ∧ statEx p = false) :
    saveCache san glob statEx tarOk skipFailure paths key =
      ⟨.error (.generic "No valid paths found to cache after expansion"),
        none, false, false, false⟩ := by
  have hexp : expandPaths glob statEx paths = [] := by
    rw [expandPaths_spec]
    apply List.flatten_eq_nil_iff.mpr
    intro l hl
    obtain ⟨p, hpmem, hpl⟩ := List.mem_map.mp hl
    obtain ⟨hg, hs⟩ := hnone p hpmem
    rw [← hpl]
    simp [hg, hs]
  unfold saveCache
  rw [checkPaths_ok hp, hk]
  simp [hexp]

/-- C6 witness: a single nonexistent path with no glob matches. -/
theorem saveCache_no_valid_paths_witness :
    saveCache id (fun _ => []) (fun _ => false) true false ["missing"] "k" =
      ⟨.error (.generic "No valid paths found to cache after expansion"),
        none, false, false, false⟩ :=
  saveCache_no_valid_paths id (fun _ => []) (fun _ => false) true false
    ["missing"] "k" (by decide) (by rfl) (by simp)

/-- C8: for a fixed sanitizer, store, archive outcome, configuration and
key list, `restoreCache` computes the same candidate matching, selects
the same cache file and returns the same matched key for any two
non-empty path lists: the `paths` argument only feeds the non-emptiness
validation. -/
theorem restoreCache_paths_irrelevant (san : String → String)
    (store : List Entry) (tarOk skipFailure : Bool) (primaryKey : String)
    (restoreKeys : Option (List String)) (paths1 paths2 : List String)
    (h1 : paths1 ≠ []) (h2 : paths2 ≠ []) :
    restoreCache san store tarOk skipFailure paths1 primaryKey restoreKeys =
      restoreCache san store tarOk skipFailure paths2 primaryKey restoreKeys := by
  unfold restoreCache
  cases checkKey primaryKey with
  | error e => rfl
  | ok u =>
    cases u
    rw [checkPaths_ok h1, checkPaths_ok h2]

/-- C8 witness: one path versus two different paths give identical
restore outcomes on a concrete store. -/
theorem restoreCache_paths_irrelevant_witness :
    restoreCache id [⟨"k.tar.zst", "k.tar.zst", some ⟨5, 9⟩⟩]
        true false ["alpha"] "k" none =
      restoreCache id [⟨"k.tar.zst", "k.tar.zst", some ⟨5, 9⟩⟩]
        true false ["beta", "gamma"] "k" none :=
  restoreCache_paths_irrelevant id [⟨"k.tar.zst", "k.tar.zst", some ⟨5, 9⟩⟩]
    true false "k" none ["alpha"] ["beta", "gamma"] (by decide) (by decide)

/-- C9: with a valid primary key, a non-empty path list, and no
candidate matching any stored file, `restoreCache` reports a clean miss:
result is `ok none` (absent, not an error), no cache file is selected,
and neither the archive tool nor the cleanup is ever invoked. -/
theorem restoreCache_clean_miss (san : String → String) (store : List Entry)
    (tarOk skipFailure : Bool) (paths : List String) (primaryKey : String)
    (restoreKeys : Option (List String))
    (hk : checkKey primaryKey = .ok ()) (hp : paths ≠ [])
    (hnomatch : ∀ m ∈ matchersOf san primaryKey restoreKeys,
      ∀ e ∈ store, substrMatch m e.name = false) :
    restoreCache san store tarOk skipFailure paths primaryKey restoreKeys =
      ⟨.ok none, none, false, false⟩ := by
  unfold restoreCache
  rw [hk, checkPaths_ok hp]
  simp only [restoreAfterChecks]
  have hfilter : filterCacheFiles (matchersOf san primaryKey restoreKeys)
      (scanStore (matchersOf san primaryKey restoreKeys) store) = (none, []) := by
    apply filterCacheFiles_no_match
    intro m hm e he
    exact hnomatch m hm e (List.mem_filter.mp he).1
  have hloc : locateCacheFile (matchersOf san primaryKey restoreKeys)
      (scanStore (matchersOf san primaryKey restoreKeys) store) = none := by
    unfold locateCacheFile
    rw [hfilter]
  rw [hloc]

/-- C9 witness: a store whose only file shares nothing with the key. -/
theorem restoreCache_clean_miss_witness :
    restoreCache id [⟨"zzz.tar.zst", "zzz.tar.zst", some ⟨5, 9⟩⟩]
        true false ["p"] "hum" none = ⟨.ok none, none, false, false⟩ :=
  restoreCache_clean_miss id [⟨"zzz.tar.zst", "zzz.tar.zst", some ⟨5, 9⟩⟩]
    true false ["p"] "hum" none (by rfl) (by decide) (by decide)

/-- C10: `restoreCache` validates only the primary key: whatever the
fallback list contains (even keys over 255 characters or with commas),
no ValidationError arises once the primary key and path list pass, the
operation proceeds exactly as the post-validation pipeline on the
sanitized candidate list, and every fallback appears sanitized in that
candidate list right after the primary key. -/
theorem restoreCache_fallback_unvalidated (san : String → String)
    (store : List Entry) (tarOk skipFailure : Bool) (paths : List String)
    (primaryKey : String) (rks : List String)
    (hk : checkKey primaryKey = .ok ()) (hp : paths ≠ []) :
    restoreCache san store tarOk skipFailure paths primaryKey (some rks) =
      restoreAfterChecks store tarOk skipFailure
        (matchersOf san primaryKey (some rks)) ∧
    (∀ msg, (restoreCache san store tarOk skipFailure paths primaryKey
      (some rks)).result ≠ .error (.validation msg)) ∧
    (rks ≠ [] → matchersOf san primaryKey (some rks) =
      (primaryKey :: rks).map san) := by
  have hmain : restoreCache san store tarOk skipFailure paths primaryKey (some rks) =
      restoreAfterChecks store tarOk skipFailure
        (matchersOf san primaryKey (some rks)) := by
    unfold restoreCache
    rw [hk, checkPaths_ok hp]
  refine ⟨hmain, ?_, ?_⟩
  · intro msg
    rw [hmain]
    simp only [restoreAfterChecks]
    cases hloc : locateCacheFile (matchersOf san primaryKey (some rks))
        (scanStore (matchersOf san primaryKey (some rks)) store) with
    | none => simp
    | some kc =>
      obtain ⟨k, c⟩ := kc
      cases tarOk <;> cases skipFailure <;> simp
  · intro hne
    unfold matchersOf
    have : rks.length ≠ 0 := by simpa [List.length_eq_zero] using hne
    simp [this]

/-- C10 witness: a fallback key containing a comma (invalid as a primary
key) causes no ValidationError and is sanitized into the candidate list
after the primary key. -/
theorem restoreCache_fallback_unvalidated_witness :
    (restoreCache id [] true true ["p"] "good" (some ["bad,key"])).result ≠
      .error (.validation "Key Validation Error: bad,key cannot contain commas.") ∧
    matchersOf id "good" (some ["bad,key"]) = ("good" :: ["bad,key"]).map id :=
  ⟨(restoreCache_fallback_unvalidated id [] true true ["p"] "good" ["bad,key"]
      (by rfl) (by decide)).2.1
      "Key Validation Error: bad,key cannot contain commas.",
    (restoreCache_fallback_unvalidated id [] true true ["p"] "good" ["bad,key"]
      (by rfl) (by decide)).2.2 (by decide)⟩
